import Mathlib

set_option maxRecDepth 2000

/-!
Verification development for the supplier-pricelist merger core
(header-row location, cost-column detection, numeric normalization,
column pruning, markup calculation).

The TypeScript services are shallowly embedded: JavaScript numbers are
modelled as exact rationals (every cell value produced by the pipeline is a
finite decimal, so no NaN/Infinity constructors are needed; the few places
the code guards against them are noted in comments), `Decimal.js`
arithmetic is modelled as exact rational arithmetic with half-away-from-zero
rounding at `toDecimalPlaces`, and JavaScript strings are Lean strings.
Array access that can yield `undefined` is modelled with `Option`.
-/

/-!
Exact rational arithmetic, implemented directly on numerator/denominator
with `mkRat` so that every embedded computation can be evaluated by
`decide`.  The `_eq` lemmas identify each operation with the corresponding
field operation on `ℚ`, which the abstract theorems use.
-/

/-- Exact rational addition on numerator/denominator form. -/
def rAdd (a b : ℚ) : ℚ := mkRat (a.num * (b.den : Int) + b.num * (a.den : Int)) (a.den * b.den)

/-- Exact rational multiplication on numerator/denominator form. -/
def rMul (a b : ℚ) : ℚ := mkRat (a.num * b.num) (a.den * b.den)

/-- Exact rational negation on numerator/denominator form. -/
def rNeg (a : ℚ) : ℚ := mkRat (-a.num) a.den

/-- Exact rational subtraction on numerator/denominator form. -/
def rSub (a b : ℚ) : ℚ := rAdd a (rNeg b)

/-- Exact rational inverse on numerator/denominator form (0 for 0). -/
def rInv (a : ℚ) : ℚ :=
  if 0 ≤ a.num then mkRat (a.den : Int) a.num.toNat
  else rNeg (mkRat (a.den : Int) (-a.num).toNat)

/-- Exact rational division on numerator/denominator form (0 for
division by 0, as in `ℚ`). -/
def rDiv (a b : ℚ) : ℚ := rMul a (rInv b)

/-- `10 ^ e` over `ℚ` for an integer exponent, in evaluable form. -/
def rPowTen : Int → ℚ
  | .ofNat n => mkRat ((10 : Int) ^ n) 1
  | .negSucc n => mkRat 1 ((10 : Nat) ^ (n + 1))

lemma mkRat_div (n : Int) (d : Nat) : mkRat n d = (n : ℚ) / (d : ℚ) :=
  Rat.mkRat_eq_div n d

lemma rAdd_eq (a b : ℚ) : rAdd a b = a + b := by
  have ha : ((a.den : ℚ)) ≠ 0 := by
    exact_mod_cast a.den_nz
  have hb : ((b.den : ℚ)) ≠ 0 := by
    exact_mod_cast b.den_nz
  rw [rAdd, mkRat_div]
  conv_rhs => rw [← Rat.num_div_den a, ← Rat.num_div_den b]
  rw [div_add_div _ _ ha hb]
  push_cast
  ring_nf

lemma rMul_eq (a b : ℚ) : rMul a b = a * b := by
  rw [rMul, mkRat_div]
  conv_rhs => rw [← Rat.num_div_den a, ← Rat.num_div_den b]
  rw [div_mul_div_comm]
  push_cast
  ring_nf

lemma rNeg_eq (a : ℚ) : rNeg a = -a := by
  rw [rNeg, mkRat_div]
  conv_rhs => rw [← Rat.num_div_den a]
  push_cast
  ring_nf

lemma rSub_eq (a b : ℚ) : rSub a b = a - b := by
  rw [rSub, rAdd_eq, rNeg_eq]
  ring

lemma rInv_eq (a : ℚ) : rInv a = a⁻¹ := by
  show rInv a = Rat.inv a
  rw [Rat.inv_def, Rat.divInt_eq_div, rInv]
  by_cases h : 0 ≤ a.num
  · rw [if_pos h, mkRat_div]
    congr 1
    exact_mod_cast Int.toNat_of_nonneg h
  · rw [if_neg h, rNeg_eq, mkRat_div]
    have h2 : ((-a.num).toNat : ℚ) = -(a.num : ℚ) := by
      exact_mod_cast Int.toNat_of_nonneg (by omega : (0 : Int) ≤ -a.num)
    rw [h2, div_neg, neg_neg]

lemma rDiv_eq (a b : ℚ) : rDiv a b = a / b := by
  rw [rDiv, rMul_eq, rInv_eq, div_eq_mul_inv]

lemma rPowTen_eq (e : Int) : rPowTen e = (10 : ℚ) ^ e := by
  cases e with
  | ofNat n =>
    rw [rPowTen, mkRat_div, Int.ofNat_eq_natCast, zpow_natCast]
    push_cast
    norm_num
  | negSucc n =>
    rw [rPowTen, mkRat_div, zpow_negSucc]
    push_cast
    rw [one_div]

/-- Cell values: `string | number | Date | boolean | null`.  A `Date` is
abstracted to its rendered string form (only ever used via `String(cell)`). -/
inductive CellValue where
  | num (q : ℚ)
  | str (s : String)
  | bool (b : Bool)
  | date (rendered : String)
  | null
deriving DecidableEq, Repr

/-- JavaScript truthiness of a cell value (`0`, `''`, `false`, `null` are falsy;
`Date` objects are always truthy). -/
def jsFalsy : CellValue → Bool
  | .num q => q == 0
  | .str s => s == ""
  | .bool b => !b
  | .date _ => false
  | .null => true

/-- JavaScript whitespace (as matched by `\s` and skipped by `parseFloat`). -/
def isJsWhitespaceChar (c : Char) : Bool :=
  c.isWhitespace || c.toNat == 0xA0 ||
    (decide (0x2000 ≤ c.toNat) && decide (c.toNat ≤ 0x200B)) ||
    c.toNat == 0x2028 || c.toNat == 0x2029 || c.toNat == 0xFEFF

/-- JS `s.trim()` (structural; JS trims the same whitespace class). -/
def jsTrim (s : String) : String :=
  String.mk (((s.data.dropWhile isJsWhitespaceChar).reverse.dropWhile
    isJsWhitespaceChar).reverse)

/-- Contiguous-prefix test on character lists. -/
def listStartsWith : List Char → List Char → Bool
  | _, [] => true
  | [], _ :: _ => false
  | a :: as, b :: bs => a == b && listStartsWith as bs

/-- `needle` occurs contiguously inside the second list (JS `String.includes`). -/
def listContainsSub (needle : List Char) : List Char → Bool
  | [] => needle.isEmpty
  | c :: t => listStartsWith (c :: t) needle || listContainsSub needle t

/-- JS `s.includes(sub)`. -/
def strIncludes (s sub : String) : Bool := listContainsSub sub.data s.data

/-- JS `s.indexOf(sub) === 0`. -/
def strStartsWith (s sub : String) : Bool := listStartsWith s.data sub.data

def digitVal (c : Char) : Nat := c.toNat - '0'.toNat

/-- Split a character list into its leading run of decimal digits and the rest. -/
def takeDigits : List Char → List Char × List Char
  | [] => ([], [])
  | c :: cs =>
    if c.isDigit then
      let p := takeDigits cs
      (c :: p.1, p.2)
    else ([], c :: cs)

def digitsToNat (ds : List Char) : Nat := ds.foldl (fun acc c => acc * 10 + digitVal c) 0

/-- Consume an optional leading sign; returns (isNegative, rest). -/
def parseSignChar : List Char → Bool × List Char
  | '-' :: cs => (true, cs)
  | '+' :: cs => (false, cs)
  | cs => (false, cs)

/-- Exponent suffix accepted by `parseFloat` (`e`/`E`, optional sign, digits);
an incomplete exponent is ignored, giving exponent 0. -/
def parseExponentPart : List Char → Int
  | [] => 0
  | c :: cs =>
    if c == 'e' || c == 'E' then
      let sg := parseSignChar cs
      let eds := (takeDigits sg.2).1
      if eds.isEmpty then 0
      else if sg.1 then -(digitsToNat eds : Int) else (digitsToNat eds : Int)
    else 0

/-- JS `parseFloat` on a character list: longest numeric prefix after leading
whitespace, `none` for NaN.  (`Infinity` literals are not modelled; every
path in the embedded code treats a non-finite direct parse the same as a
failed one.) -/
def jsParseFloatChars (cs0 : List Char) : Option ℚ :=
  let cs1 := cs0.dropWhile isJsWhitespaceChar
  let sg := parseSignChar cs1
  let ipr := takeDigits sg.2
  let fpr : List Char × List Char :=
    match ipr.2 with
    | '.' :: rest => takeDigits rest
    | _ => ([], ipr.2)
  if ipr.1.isEmpty && fpr.1.isEmpty then none
  else
    let mant : ℚ :=
      rAdd (digitsToNat ipr.1 : ℚ) (rDiv (digitsToNat fpr.1 : ℚ) (rPowTen (fpr.1.length : Int)))
    let e : Int := parseExponentPart fpr.2
    let v := rMul mant (rPowTen e)
    some (if sg.1 then rNeg v else v)

/-- JS `parseFloat(s)`. -/
def jsParseFloat (s : String) : Option ℚ := jsParseFloatChars s.data

/-- Whether the whole character list is a decimal numeric literal (used for
`Number(s)`; hex/binary/`Infinity` literals are not modelled, as no embedded
input uses them). -/
def jsFullNumericChars (cs0 : List Char) : Bool :=
  let sg := parseSignChar cs0
  let ipr := takeDigits sg.2
  let fpr : List Char × List Char :=
    match ipr.2 with
    | '.' :: rest => takeDigits rest
    | _ => ([], ipr.2)
  if ipr.1.isEmpty && fpr.1.isEmpty then false
  else
    match fpr.2 with
    | [] => true
    | c :: cs5 =>
      (c == 'e' || c == 'E') &&
        (let sg2 := parseSignChar cs5
         let edr := takeDigits sg2.2
         !edr.1.isEmpty && edr.2.isEmpty)

/-- JS `!isNaN(Number(s))`: blank strings convert to 0; otherwise the whole
trimmed string must be a numeric literal. -/
def jsNumberNotNaN (s : String) : Bool :=
  let t := jsTrim s
  t == "" || jsFullNumericChars t.data

/-- Matcher for the regex `/^\d{1,2}\/\d{1,2}\/\d{2,4}$/`. -/
def matchDateLike (cs : List Char) : Bool :=
  let p1 := takeDigits cs
  (decide (1 ≤ p1.1.length) && decide (p1.1.length ≤ 2)) &&
    match p1.2 with
    | '/' :: r2 =>
      let p2 := takeDigits r2
      (decide (1 ≤ p2.1.length) && decide (p2.1.length ≤ 2)) &&
        match p2.2 with
        | '/' :: r4 =>
          let p3 := takeDigits r4
          (decide (2 ≤ p3.1.length) && decide (p3.1.length ≤ 4)) && p3.2.isEmpty
        | _ => false
    | _ => false

/-- Round to `dp` decimal places, half away from zero (`Decimal.js`
default `ROUND_HALF_UP`). -/
def roundHalfUpDp (dp : Nat) (x : ℚ) : ℚ :=
  if 0 ≤ x then rDiv (⌊rAdd (rMul x (rPowTen (dp : Int))) (mkRat 1 2)⌋ : ℚ) (rPowTen (dp : Int))
  else rNeg (rDiv (⌊rAdd (rMul (rNeg x) (rPowTen (dp : Int))) (mkRat 1 2)⌋ : ℚ)
    (rPowTen (dp : Int)))

/-- Number of fractional digits of a terminating decimal (the printed form of
a JS number always terminates; capped at 64, far above the 17 significant
digits a JS number can print). -/
def decimalDigitsOf (q : ℚ) : Nat :=
  (((List.range 65).find? fun (d : Nat) => (rMul q (rPowTen (d : Int))).den == 1).getD 64)

/-- JS `Number.prototype.toString`, idealized for terminating decimals
(negative sign, integer part, fractional part without trailing zeros). -/
def ratToString (q : ℚ) : String :=
  let sign := if q < 0 then "-" else ""
  let k := decimalDigitsOf q
  if k = 0 then sign ++ Nat.repr q.num.natAbs
  else
    let scaled := q.num.natAbs * 10 ^ k / q.den
    let s := Nat.repr scaled
    let ds := if s.length ≤ k then List.replicate (k + 1 - s.length) '0' ++ s.data else s.data
    sign ++ String.mk (ds.take (ds.length - k)) ++ "." ++ String.mk (ds.drop (ds.length - k))

/-- JS `Number.prototype.toFixed(1)`, idealized (round half away from zero,
always exactly one fractional digit). -/
def ratToFixed1 (q : ℚ) : String :=
  let r := roundHalfUpDp 1 q
  let sign := if r < 0 then "-" else ""
  let scaled := r.num.natAbs * 10 / r.den
  sign ++ Nat.repr (scaled / 10) ++ "." ++ Nat.repr (scaled % 10)

/-- JS `String(v)` on a cell value. -/
def jsCellToString : CellValue → String
  | .num q => ratToString q
  | .str s => s
  | .bool b => if b then "true" else "false"
  | .date rendered => rendered
  | .null => "null"

/-- JS `String(v || '')` where `v` may be `undefined` (`none`). -/
def jsStringOrEmpty : Option CellValue → String
  | none => ""
  | some v => if jsFalsy v then "" else jsCellToString v

/-- JS `s.toLowerCase()` (ASCII, which covers every keyword in the code). -/
def jsToLower (s : String) : String := String.mk (s.data.map Char.toLower)

namespace MarkupCalc

/-- Placeholder texts rejected by `parseNumericValue` (exact, case-sensitive
pairs as listed in the source). -/
def placeholderStrings : List String :=
  ["", "-", "N/A", "n/a", "NULL", "null", "#N/A", "TBC", "tbc", "TBA", "tba",
   "POA", "poa", "CALL", "call"]

def isCurrencyChar (c : Char) : Bool :=
  c == '$' || c == '£' || c == '€' || c == '¥' || c == '₹' || c == 'R' || c == 'r'

def isSeparatorSpaceChar (c : Char) : Bool := c == ',' || isJsWhitespaceChar c

def isParenChar (c : Char) : Bool := c == '(' || c == ')'

def isQuoteChar (c : Char) : Bool := c == '\'' || c == '"'

/-- The successive `.replace` cleanup passes of `parseNumericValue`: strip
currency symbols (case-insensitively, so also `r`), separators and spaces,
parentheses, quotes, then keep only digits, `.` and `-`. -/
def cleanNumericText (s : String) : String :=
  let s1 := String.mk (s.data.filter fun c => !isCurrencyChar c)
  let s2 := String.mk (s1.data.filter fun c => !isSeparatorSpaceChar c)
  let s3 := String.mk (s2.data.filter fun c => !isParenChar c)
  let s4 := String.mk (s3.data.filter fun c => !isQuoteChar c)
  String.mk (s4.data.filter fun c => c.isDigit || c == '.' || c == '-')

/-- The markup service's string-to-number normalizer (`parseNumericValue` in
`markup-calculation.service`): placeholder rejection, direct `parseFloat`
(negative results normalized to their absolute value), aggressive cleanup,
percentage division when the original text contains `%`, final parse. -/
def parseNumericValue (value : String) : Option ℚ :=
  if value = "" then none
  else
    let stringValue := jsTrim value
    if stringValue ∈ placeholderStrings then none
    else
      match jsParseFloat stringValue with
      | some directParse => some (if 0 ≤ directParse then directParse else rNeg directParse)
      | none =>
        let cleaned := cleanNumericText stringValue
        if cleaned = "" then none
        else if stringValue.data.contains '%' then
          match jsParseFloat cleaned with
          | some parsed => some (rDiv parsed 100)
          | none => none
        else
          match jsParseFloat cleaned with
          | some finalParse => some (if 0 ≤ finalParse then finalParse else rNeg finalParse)
          | none => none

/-- One calculated markup column (percentage, position in the output grid,
generated header text). -/
structure MarkupColumn where
  percentage : ℚ
  columnIndex : Nat
  header : String
deriving DecidableEq, Repr

/-- MarkupConfiguration: percentages, decimal places, optional currency
symbol.  `decimalPlaces` is a JS number, hence a rational here: the code
never checks integrality (see the `validateInputs` theorems). -/
structure MarkupConfiguration where
  percentages : List ℚ
  decimalPlaces : ℚ
  currencySymbol : Option String
deriving DecidableEq, Repr

structure ProcessingError where
  code : String
  message : String
deriving DecidableEq, Repr

/-- `ProcessingResult<T>`: success with data, or failure with an error. -/
inductive ProcessingOutcome (α : Type) where
  | ok (data : α)
  | err (e : ProcessingError)
deriving DecidableEq, Repr

def ProcessingOutcome.success {α : Type} : ProcessingOutcome α → Bool
  | .ok _ => true
  | .err _ => false

/-- JS array access `row[i]` with a possibly negative index
(`none` models `undefined`). -/
def jsGetCell (row : List CellValue) (i : Int) : Option CellValue :=
  if 0 ≤ i then row.get? i.toNat else none

/-- Cost normalization at the head of `calculateSingleMarkup`: `null` and
`undefined` are rejected, numbers pass through, strings are parsed, anything
else is converted with `String(...)` first and then parsed. -/
def numericCostOf : Option CellValue → Option ℚ
  | none => none
  | some .null => none
  | some (.num q) => some q
  | some (.str s) => parseNumericValue s
  | some v => parseNumericValue (jsCellToString v)

/-- `calculateSingleMarkup(costValue, markupPercentage, decimalPlaces)`:
invalid or negative costs give `null`; zero cost gives 0; otherwise the
`Decimal.js` computation `cost.mul(percentage.div(100).plus(1))` rounded with
`toDecimalPlaces` (which throws, caught as `null`, unless `decimalPlaces` is
an integer in [0, 1e9]).  `Decimal.js` arithmetic is modelled as exact
rational arithmetic; the `isNaN`/`isFinite` guards are vacuous in the
rational model. -/
def calculateSingleMarkup (costValue : Option CellValue)
    (markupPercentage decimalPlaces : ℚ) : Option ℚ :=
  match numericCostOf costValue with
  | none => none
  | some numericCost =>
    if numericCost < 0 then none
    else if numericCost = 0 then some 0
    else if decimalPlaces.den = 1 ∧ 0 ≤ decimalPlaces ∧ decimalPlaces ≤ 1000000000 then
      some (roundHalfUpDp decimalPlaces.num.toNat
        (rMul numericCost (rAdd (rDiv markupPercentage 100) 1)))
    else none

/-- `validateInputs` of the markup service: structural checks in source
order, returning the first failing check's error. -/
def validateInputs (data : List (List CellValue)) (costColumnIndex : Int)
    (config : MarkupConfiguration) : Option ProcessingError :=
  if data.length = 0 then some ⟨"EMPTY_DATA", "Data cannot be empty"⟩
  else if (data.headD []).length = 0 then
    some ⟨"INVALID_HEADERS", "First row must contain column headers"⟩
  else if costColumnIndex < 0 ∨ ((data.headD []).length : Int) ≤ costColumnIndex then
    some ⟨"INVALID_COST_COLUMN_INDEX", "Cost column index is out of range"⟩
  else if config.percentages.length = 0 then
    some ⟨"INVALID_MARKUP_PERCENTAGES", "Markup percentages must be a non-empty array"⟩
  else if (config.percentages.find? fun p => decide (p < 0)).isSome then
    some ⟨"INVALID_MARKUP_PERCENTAGE", "Invalid markup percentage. Must be a non-negative number"⟩
  else if config.decimalPlaces < 0 ∨ 10 < config.decimalPlaces then
    some ⟨"INVALID_DECIMAL_PLACES", "Decimal places must be a number between 0 and 10"⟩
  else none

/-- `isValidCostValue`: non-negative numbers, or strings parsing to a
non-negative number; dates, booleans, `null`/`undefined` are invalid. -/
def isValidCostValue : Option CellValue → Bool
  | none => false
  | some .null => false
  | some (.num q) => decide (0 ≤ q)
  | some (.str s) =>
    match parseNumericValue s with
    | some parsed => decide (0 ≤ parsed)
    | none => false
  | some (.date _) => false
  | some (.bool _) => false

/-- `validateCostColumn`: counts rows long enough to reach the cost column
and requires at least 0.5 percent of them to hold a valid cost value. -/
def validateCostColumn (dataRows : List (List CellValue)) (costColumnIndex : Int) :
    Option String :=
  if dataRows.length = 0 then some "No data rows available for cost column validation"
  else
    let counted := dataRows.filter fun row => decide (costColumnIndex < (row.length : Int))
    let totalRows := counted.length
    let validCostValues :=
      (counted.filter fun row => isValidCostValue (jsGetCell row costColumnIndex)).length
    if totalRows = 0 then some "Cost column contains no data"
    else if rDiv (validCostValues : ℚ) (totalRows : ℚ) < mkRat 5 1000 then
      some "Cost column contains too few valid numeric values"
    else none

/-- `generateMarkupHeader`: integral percentages print without decimals,
fractional ones with `toFixed(1)`. -/
def generateMarkupHeader (percentage : ℚ) (currencySymbol : Option String) : String :=
  let symbol := currencySymbol.getD ""
  let percentageStr := if percentage.den = 1 then ratToString percentage else ratToFixed1 percentage
  symbol ++ percentageStr ++ "% Markup"

/-- `calculateMarkupColumns`: validate, then build one `MarkupColumn` per
percentage at indices following the headers, then validate the cost column. -/
def calculateMarkupColumns (data : List (List CellValue)) (costColumnIndex : Int)
    (config : MarkupConfiguration) : ProcessingOutcome (List MarkupColumn) :=
  match validateInputs data costColumnIndex config with
  | some e => .err e
  | none =>
    if data.length = 0 then .err ⟨"EMPTY_DATA", "Cannot calculate markup for empty dataset"⟩
    else
      let headers := data.headD []
      let dataRows := data.tail
      let markupColumns := config.percentages.enum.map fun ip =>
        MarkupColumn.mk ip.2 (headers.length + ip.1) (generateMarkupHeader ip.2 config.currencySymbol)
      match validateCostColumn dataRows costColumnIndex with
      | some msg => .err ⟨"INVALID_COST_COLUMN", msg⟩
      | none => .ok markupColumns

/-- Widest row length, `Math.max(...data.map(row => row.length))`
(the caller guarantees nonempty data). -/
def maxColumns (data : List (List CellValue)) : Nat :=
  data.foldl (fun m row => max m row.length) 0

/-- A column has data if some row holds a value that is not `null`,
`undefined` or `''` there (`0` and `false` do count as data here). -/
def columnHasData (data : List (List CellValue)) (colIndex : Nat) : Bool :=
  data.any fun row =>
    match row.get? colIndex with
    | none => false
    | some .null => false
    | some (.str s) => !(s == "")
    | some _ => true

def importantHeaderKeywords : List String :=
  ["price", "cost", "unit", "amount", "value", "carton"]

/-- The header at `colIndex` looks important (price-like keywords). -/
def isImportantHeaderAt (data : List (List CellValue)) (colIndex : Nat) : Bool :=
  let headerStr := jsToLower (jsStringOrEmpty ((data.headD []).get? colIndex))
  importantHeaderKeywords.any fun kw => strIncludes headerStr kw

/-- Column indices kept by `removeEmptyColumns`. -/
def columnsToKeep (data : List (List CellValue)) : List Nat :=
  (List.range (maxColumns data)).filter fun colIndex =>
    columnHasData data colIndex || isImportantHeaderAt data colIndex

/-- JS `row[colIndex] || ''`: missing or falsy cells become the empty string. -/
def jsCellOrEmpty (o : Option CellValue) : CellValue :=
  match o with
  | some v => if jsFalsy v then .str "" else v
  | none => .str ""

/-- `removeEmptyColumns`: drop columns with neither data nor an important
header, replacing falsy surviving cells by `''`. -/
def removeEmptyColumns (data : List (List CellValue)) : List (List CellValue) :=
  if data.isEmpty then data
  else data.map fun row => (columnsToKeep data).map fun colIndex => jsCellOrEmpty (row.get? colIndex)

/-- The ordered keyword phrases of `findBestPriceColumn` (note the
`"price for"` entry between `"price for carton"` and `"unit cost"`). -/
def priceKeywords : List String :=
  ["unit price", "price for carton", "price for", "unit cost", "selling price",
   "list price", "price", "cost", "amount", "value"]

def exclusionKeywords : List String :=
  ["code", "description", "size", "colour", "availability", "effective", "remark"]

/-- First keyword (in order) that occurs in some header, returning the
leftmost such header's index. -/
def findPriceKeywordIdx : List String → List CellValue → Option Nat
  | [], _ => none
  | kw :: kws, headers =>
    match headers.findIdx? (fun h => strIncludes (jsToLower (jsStringOrEmpty (some h))) (jsToLower kw)) with
    | some index => some index
    | none => findPriceKeywordIdx kws headers

/-- Whether a header contains one of the exclusion keywords. -/
def isExcludedPriceHeader (h : CellValue) : Bool :=
  exclusionKeywords.any fun kw => strIncludes (jsToLower (jsStringOrEmpty (some h))) kw

/-- `findBestPriceColumn`: first keyword-phrase match, else first
non-excluded column, else column 0. -/
def findBestPriceColumn (headers : List CellValue) : Nat :=
  match findPriceKeywordIdx priceKeywords headers with
  | some index => index
  | none =>
    match headers.findIdx? (fun h => !isExcludedPriceHeader h) with
    | some index => index
    | none => 0

def isPriceHeaderStr (s : String) : Bool :=
  strIncludes s "price" || strIncludes s "cost" || strIncludes s "unit"

/-- `adjustColumnIndex`: re-find the original header among the cleaned
headers; fall back to `findBestPriceColumn` when it is gone, or when the
re-found header does not itself look price-like. -/
def adjustColumnIndex (originalHeaders cleanedHeaders : List CellValue)
    (originalIndex : Int) : Nat :=
  if (originalHeaders.length : Int) ≤ originalIndex then findBestPriceColumn cleanedHeaders
  else
    let originalHeader : Option CellValue := jsGetCell originalHeaders originalIndex
    match cleanedHeaders.findIdx? (fun h => some h == originalHeader) with
    | none => findBestPriceColumn cleanedHeaders
    | some newIndex =>
      let headerStr := jsToLower (jsStringOrEmpty (cleanedHeaders.get? newIndex))
      if isPriceHeaderStr headerStr then newIndex
      else findBestPriceColumn cleanedHeaders

/-- `applyMarkupCalculations`: prune empty columns, re-aim the cost column,
append one generated cell per markup column to headers and to every data
row (an unparsable cost yields `''` cells for that row only). -/
def applyMarkupCalculations (data : List (List CellValue)) (costColumnIndex : Int)
    (markupColumns : List MarkupColumn) (config : MarkupConfiguration) :
    List (List CellValue) :=
  match data with
  | [] => []
  | headerRow :: dataRows =>
    let cleanedData := removeEmptyColumns (headerRow :: dataRows)
    let cleanedHeaderRow := cleanedData.headD []
    let cleanedDataRows := cleanedData.tail
    let adjustedCostColumnIndex := adjustColumnIndex headerRow cleanedHeaderRow costColumnIndex
    let newHeaders := cleanedHeaderRow ++ markupColumns.map fun col => CellValue.str col.header
    let newDataRows := cleanedDataRows.map fun row =>
      row ++ markupColumns.map fun markupColumn =>
        match calculateSingleMarkup (row.get? adjustedCostColumnIndex)
            markupColumn.percentage config.decimalPlaces with
        | some markupPrice => CellValue.num markupPrice
        | none => CellValue.str ""
    newHeaders :: newDataRows

end MarkupCalc


lemma roundHalfUpDp_zero (dp : Nat) : roundHalfUpDp dp 0 = 0 := by
  simp [roundHalfUpDp, rMul_eq, rAdd_eq, rDiv_eq, rPowTen_eq, mkRat_div]
  norm_num

/-- C1: for a finite non-negative numeric cost `c`, a non-negative percentage
`p` and an integral `decimalPlaces` `dp` in the validated range,
`calculateSingleMarkup` returns exactly `c * (1 + p/100)` rounded (exact
decimal arithmetic, half away from zero) to `dp` decimal places; in
particular a zero cost yields 0. -/
theorem C1_single_markup_formula (c p : ℚ) (dp : Nat)
    (hc : 0 ≤ c) (_hp : 0 ≤ p) (hdp : dp ≤ 10) :
    MarkupCalc.calculateSingleMarkup (some (.num c)) p (dp : ℚ) =
      some (roundHalfUpDp dp (c * (1 + p / 100))) ∧
    MarkupCalc.calculateSingleMarkup (some (.num 0)) p (dp : ℚ) = some 0 := by
  constructor
  · simp only [MarkupCalc.calculateSingleMarkup, MarkupCalc.numericCostOf]
    rw [if_neg (not_lt.mpr hc)]
    by_cases hc0 : c = 0
    · rw [if_pos hc0, hc0]
      rw [zero_mul, roundHalfUpDp_zero]
    · rw [if_neg hc0]
      rw [if_pos]
      · have hnum : ((dp : ℚ).num.toNat : Nat) = dp := by
          simp [Rat.num_natCast]
        rw [hnum]
        congr 1
        congr 1
        rw [rMul_eq, rAdd_eq, rDiv_eq]
        ring
      · refine ⟨by simp [Rat.den_natCast], by positivity, ?_⟩
        calc ((dp : ℚ)) ≤ (10 : ℚ) := by exact_mod_cast hdp
          _ ≤ 1000000000 := by norm_num
  · simp only [MarkupCalc.calculateSingleMarkup, MarkupCalc.numericCostOf]
    norm_num

/-- Witness for C1 at cost 10, percentage 20, two decimal places. -/
theorem C1_single_markup_formula_witness :
    MarkupCalc.calculateSingleMarkup (some (.num 10)) 20 ((2 : Nat) : ℚ) =
      some (roundHalfUpDp 2 (10 * (1 + 20 / 100))) ∧
    MarkupCalc.calculateSingleMarkup (some (.num 0)) 20 ((2 : Nat) : ℚ) = some 0 :=
  C1_single_markup_formula 10 20 2 (by norm_num) (by norm_num) (by norm_num)

/-- C2 counterexample: the claim asserts `parse("15%") = 0.15`, but the
direct `parseFloat` pass already succeeds on the numeric prefix of `"15%"`
and returns 15, so the percentage branch is never reached. -/
theorem C2_parse_counterexample :
    MarkupCalc.parseNumericValue "15%" ≠ some (mkRat 15 100) ∧
    MarkupCalc.parseNumericValue "15%" = some 15 := by
  decide

/-- C2 amended: the spec examples hold except that `parse("15%") = 15`,
because the direct `parseFloat` succeeds on the numeric prefix; the
divide-by-100 percentage branch applies only when the direct parse fails,
e.g. `parse("$15%") = 0.15`. -/
theorem C2_parse_amended :
    MarkupCalc.parseNumericValue "$1,234.50" = some (mkRat 123450 100) ∧
    MarkupCalc.parseNumericValue "POA" = none ∧
    MarkupCalc.parseNumericValue "N/A" = none ∧
    MarkupCalc.parseNumericValue "15%" = some 15 ∧
    MarkupCalc.parseNumericValue "$15%" = some (mkRat 15 100) := by
  decide

/-- C10: a finite negative cost supplied as a typed number yields `null`,
while the same negative value arriving as a numeric string is normalized by
the parser to its absolute value, and the markup is then computed from that
absolute value. -/
theorem C10_negative_cost_asymmetry (p d q : ℚ) (hq : q < 0) :
    MarkupCalc.calculateSingleMarkup (some (.num q)) p d = none ∧
    ∀ s : String, jsTrim s ∉ MarkupCalc.placeholderStrings →
      jsParseFloat (jsTrim s) = some q →
      MarkupCalc.parseNumericValue s = some (-q) ∧
      MarkupCalc.calculateSingleMarkup (some (.str s)) p d =
        MarkupCalc.calculateSingleMarkup (some (.num (-q))) p d := by
  constructor
  · simp only [MarkupCalc.calculateSingleMarkup, MarkupCalc.numericCostOf]
    rw [if_pos hq]
  · intro s hnp hpf
    have hse : s ≠ "" := by
      intro hx
      apply hnp
      rw [hx]
      decide
    have hparse : MarkupCalc.parseNumericValue s = some (-q) := by
      simp only [MarkupCalc.parseNumericValue, if_neg hse, if_neg hnp, hpf]
      simp [not_le.mpr hq, rNeg_eq]
    refine ⟨hparse, ?_⟩
    simp only [MarkupCalc.calculateSingleMarkup, MarkupCalc.numericCostOf, hparse]

/-- Witness for C10 at q = -5 with the numeric string "-5". -/
theorem C10_negative_cost_asymmetry_witness :
    MarkupCalc.calculateSingleMarkup (some (.num (mkRat (-5) 1))) 10 2 = none ∧
    MarkupCalc.parseNumericValue "-5" = some (-(mkRat (-5) 1)) ∧
    MarkupCalc.calculateSingleMarkup (some (.str "-5")) 10 2 =
      MarkupCalc.calculateSingleMarkup (some (.num (-(mkRat (-5) 1)))) 10 2 := by
  have h := C10_negative_cost_asymmetry 10 2 (mkRat (-5) 1) (by norm_num)
  have h2 := h.2 "-5" (by decide) (by decide)
  exact ⟨h.1, h2.1, h2.2⟩

lemma validateInputs_none_sound (data : List (List CellValue)) (idx : Int)
    (cfg : MarkupCalc.MarkupConfiguration)
    (h : MarkupCalc.validateInputs data idx cfg = none) :
    data.length ≠ 0 ∧ (data.headD []).length ≠ 0 ∧
    0 ≤ idx ∧ idx < ((data.headD []).length : Int) ∧
    cfg.percentages ≠ [] ∧ (∀ p ∈ cfg.percentages, 0 ≤ p) ∧
    0 ≤ cfg.decimalPlaces ∧ cfg.decimalPlaces ≤ 10 := by
  unfold MarkupCalc.validateInputs at h
  split_ifs at h with h0 h1 h2 h3 h4 h5
  push_neg at h2 h5
  refine ⟨h0, h1, h2.1, h2.2, ?_, ?_, h5.1, h5.2⟩
  · intro hx
    exact h3 (by simp [hx])
  · intro p hp
    have hfind : (cfg.percentages.find? fun p => decide (p < 0)) = none :=
      Option.not_isSome_iff_eq_none.mp h4
    have := List.find?_eq_none.mp hfind p hp
    simpa using this

/-- C5 counterexample: a non-integer `decimalPlaces` of 2.5 (inside [0,10])
passes validation and the whole calculation succeeds, so non-integer values
are not rejected. -/
theorem C5_validation_counterexample :
    (MarkupCalc.calculateMarkupColumns [[.str "Cost"], [.num 5]] 0
      ⟨[10], mkRat 5 2, none⟩).success = true := by
  decide

/-- C5 amended: configuration is validated before any row is processed, and
the batch fails unless the cost column index is within header bounds, the
percentage list is non-empty with only non-negative entries, and
`decimalPlaces` is a number in [0,10] — integrality of `decimalPlaces` is
not checked.  (Stated contrapositively: success implies every validated
condition held.) -/
theorem C5_validation_amended (data : List (List CellValue)) (idx : Int)
    (cfg : MarkupCalc.MarkupConfiguration)
    (h : (MarkupCalc.calculateMarkupColumns data idx cfg).success = true) :
    data ≠ [] ∧ (data.headD []) ≠ [] ∧
    0 ≤ idx ∧ idx < ((data.headD []).length : Int) ∧
    cfg.percentages ≠ [] ∧ (∀ p ∈ cfg.percentages, 0 ≤ p) ∧
    0 ≤ cfg.decimalPlaces ∧ cfg.decimalPlaces ≤ 10 := by
  have hv : MarkupCalc.validateInputs data idx cfg = none := by
    cases hv : MarkupCalc.validateInputs data idx cfg with
    | none => rfl
    | some e =>
      unfold MarkupCalc.calculateMarkupColumns at h
      rw [hv] at h
      simp [MarkupCalc.ProcessingOutcome.success] at h
  obtain ⟨h0, h1, h2, h3, h4, h5, h6, h7⟩ := validateInputs_none_sound data idx cfg hv
  refine ⟨?_, ?_, h2, h3, h4, h5, h6, h7⟩
  · intro hx
    rw [hx] at h0
    exact h0 rfl
  · intro hx
    rw [hx] at h1
    exact h1 rfl

namespace ExcelParse

/-- Header keyword list of `findHeaderRow` in the parsing service. -/
def headerKeywords : List String :=
  ["name", "code", "id", "description", "item", "product", "style",
   "price", "cost", "unit", "amount", "value", "rate", "total",
   "qty", "quantity", "stock", "availability", "carton", "pack",
   "size", "colour", "color", "brand", "category", "type", "model",
   "supplier", "vendor", "manufacturer", "sku", "barcode", "ref"]

/-- The `cell !== null && cell !== undefined && cell !== ''` guard. -/
def isMeaningfulCell : CellValue → Bool
  | .null => false
  | .str s => !(s == "")
  | _ => true

/-- Score contribution of one non-empty cell (given its lowercased, trimmed
text) and whether it matched a header keyword: +10 for the first keyword
match, +15 for price/cost, +20 more for unit price/cost, −5 for bare
numbers or `D/D/YYYY`-style dates. -/
def scoreCell (cellStr : String) : Int × Bool :=
  let kwMatch := headerKeywords.any fun kw => strIncludes cellStr kw
  let base : Int := if kwMatch then 10 else 0
  let priceBonus : Int :=
    if strIncludes cellStr "price" || strIncludes cellStr "cost" then 15 else 0
  let unitBonus : Int :=
    if strIncludes cellStr "unit" && (strIncludes cellStr "price" || strIncludes cellStr "cost")
    then 20 else 0
  let penalty : Int := if jsNumberNotNaN cellStr || matchDateLike cellStr.data then -5 else 0
  (base + priceBonus + unitBonus + penalty, kwMatch)

/-- Total score of a candidate header row: cell scores, then +2 per
non-null cell when there are at least 3, then +5 per keyword-matching cell
when there are at least 2. -/
def scoreRow (row : List CellValue) : Int :=
  let folded := row.foldl (fun acc cell =>
    if isMeaningfulCell cell then
      let sc := scoreCell (jsTrim (jsToLower (jsCellToString cell)))
      (acc.1 + sc.1, acc.2.1 + 1, acc.2.2 + (if sc.2 then 1 else 0))
    else acc) ((0 : Int), (0 : Nat), (0 : Nat))
  let withWidth :=
    if 3 ≤ folded.2.1 then folded.1 + (folded.2.1 : Int) * 2 else folded.1
  if 2 ≤ folded.2.2 then withWidth + (folded.2.2 : Int) * 5 else withWidth

/-- The scanning loop of `findHeaderRow`: keep the best row so far,
replacing it only on a strictly higher score; empty rows are skipped. -/
def findHeaderRowAux : List (List CellValue) → Nat → Int → Int → Int
  | [], _, bestHeaderRow, _ => bestHeaderRow
  | row :: rest, rowIndex, bestHeaderRow, bestScore =>
    if row.length = 0 then findHeaderRowAux rest (rowIndex + 1) bestHeaderRow bestScore
    else if bestScore < scoreRow row then
      findHeaderRowAux rest (rowIndex + 1) (rowIndex : Int) (scoreRow row)
    else findHeaderRowAux rest (rowIndex + 1) bestHeaderRow bestScore

/-- `findHeaderRow`: scan at most the first 10 rows, starting from best
index −1 and best score 0. -/
def findHeaderRow (rawData : List (List CellValue)) : Int :=
  findHeaderRowAux (rawData.take 10) 0 (-1) 0

end ExcelParse

lemma findHeaderRowAux_spec (rs : List (List CellValue)) :
    ∀ (idx : Nat) (best bs : Int), 0 ≤ bs →
      (ExcelParse.findHeaderRowAux rs idx best bs = best ∧
        ∀ j, j < rs.length → ExcelParse.scoreRow (rs.getD j []) ≤ bs) ∨
      (∃ j, j < rs.length ∧
        ExcelParse.findHeaderRowAux rs idx best bs = ((idx + j : Nat) : Int) ∧
        bs < ExcelParse.scoreRow (rs.getD j []) ∧
        (∀ k, k < rs.length →
          ExcelParse.scoreRow (rs.getD k []) ≤ ExcelParse.scoreRow (rs.getD j [])) ∧
        (∀ k, k < j →
          ExcelParse.scoreRow (rs.getD k []) < ExcelParse.scoreRow (rs.getD j []))) := by
  induction rs with
  | nil =>
    intro idx best bs hbs
    left
    exact ⟨rfl, fun j hj => absurd hj (by simp)⟩
  | cons r rest ih =>
    intro idx best bs hbs
    have hgetzero : (r :: rest).getD 0 [] = r := rfl
    have hgetsucc : ∀ j : Nat, (r :: rest).getD (j + 1) [] = rest.getD j [] := fun _ => rfl
    by_cases hre : r.length = 0
    · have hr0 : ExcelParse.scoreRow r = 0 := by
        rw [List.length_eq_zero.mp hre]
        decide
      have haux : ExcelParse.findHeaderRowAux (r :: rest) idx best bs =
          ExcelParse.findHeaderRowAux rest (idx + 1) best bs := by
        simp [ExcelParse.findHeaderRowAux, hre]
      rcases ih (idx + 1) best bs hbs with ⟨heq, hall⟩ | ⟨j, hj, heq, hgt, hmax, hstrict⟩
      · left
        refine ⟨haux.trans heq, ?_⟩
        intro j hj
        cases j with
        | zero => rw [hgetzero, hr0]; exact hbs
        | succ j =>
          rw [hgetsucc]
          exact hall j (by simp only [List.length_cons] at hj; omega)
      · right
        refine ⟨j + 1, by simp only [List.length_cons]; omega, ?_, ?_, ?_, ?_⟩
        · rw [haux, heq]; omega
        · rw [hgetsucc]; exact hgt
        · intro k hk
          cases k with
          | zero =>
            rw [hgetzero, hgetsucc, hr0]
            exact le_of_lt (lt_of_le_of_lt hbs hgt)
          | succ k =>
            rw [hgetsucc, hgetsucc]
            exact hmax k (by simp only [List.length_cons] at hk; omega)
        · intro k hk
          cases k with
          | zero => rw [hgetzero, hgetsucc, hr0]; exact lt_of_le_of_lt hbs hgt
          | succ k => rw [hgetsucc, hgetsucc]; exact hstrict k (by omega)
    · by_cases hsc : bs < ExcelParse.scoreRow r
      · have haux : ExcelParse.findHeaderRowAux (r :: rest) idx best bs =
            ExcelParse.findHeaderRowAux rest (idx + 1) (idx : Int) (ExcelParse.scoreRow r) := by
          simp [ExcelParse.findHeaderRowAux, hre, hsc]
        have hsc0 : 0 ≤ ExcelParse.scoreRow r := le_of_lt (lt_of_le_of_lt hbs hsc)
        rcases ih (idx + 1) (idx : Int) (ExcelParse.scoreRow r) hsc0 with
          ⟨heq, hall⟩ | ⟨j, hj, heq, hgt, hmax, hstrict⟩
        · right
          refine ⟨0, by simp, ?_, by rw [hgetzero]; exact hsc, ?_, ?_⟩
          · rw [haux, heq]; omega
          · intro k hk
            cases k with
            | zero => exact le_refl _
            | succ k =>
              rw [hgetzero, hgetsucc]
              exact hall k (by simp only [List.length_cons] at hk; omega)
          · intro k hk; omega
        · right
          refine ⟨j + 1, by simp only [List.length_cons]; omega, ?_, ?_, ?_, ?_⟩
          · rw [haux, heq]; omega
          · rw [hgetsucc]; exact lt_trans hsc hgt
          · intro k hk
            cases k with
            | zero => rw [hgetzero, hgetsucc]; exact le_of_lt hgt
            | succ k =>
              rw [hgetsucc, hgetsucc]
              exact hmax k (by simp only [List.length_cons] at hk; omega)
          · intro k hk
            cases k with
            | zero => rw [hgetzero, hgetsucc]; exact hgt
            | succ k => rw [hgetsucc, hgetsucc]; exact hstrict k (by omega)
      · have haux : ExcelParse.findHeaderRowAux (r :: rest) idx best bs =
            ExcelParse.findHeaderRowAux rest (idx + 1) best bs := by
          simp [ExcelParse.findHeaderRowAux, hre, hsc]
        push_neg at hsc
        rcases ih (idx + 1) best bs hbs with ⟨heq, hall⟩ | ⟨j, hj, heq, hgt, hmax, hstrict⟩
        · left
          refine ⟨haux.trans heq, ?_⟩
          intro j hj
          cases j with
          | zero => rw [hgetzero]; exact hsc
          | succ j =>
            rw [hgetsucc]
            exact hall j (by simp only [List.length_cons] at hj; omega)
        · right
          refine ⟨j + 1, by simp only [List.length_cons]; omega, ?_, ?_, ?_, ?_⟩
          · rw [haux, heq]; omega
          · rw [hgetsucc]; exact hgt
          · intro k hk
            cases k with
            | zero => rw [hgetzero, hgetsucc]; exact le_of_lt (lt_of_le_of_lt hsc hgt)
            | succ k =>
              rw [hgetsucc, hgetsucc]
              exact hmax k (by simp only [List.length_cons] at hk; omega)
          · intro k hk
            cases k with
            | zero => rw [hgetzero, hgetsucc]; exact lt_of_le_of_lt hsc hgt
            | succ k => rw [hgetsucc, hgetsucc]; exact hstrict k (by omega)

/-- C7: `findHeaderRow` only looks at the first 10 rows; it answers −1
exactly when no examined row scores above 0, and otherwise answers the
smallest row index achieving the maximal score. -/
theorem C7_find_header_row (grid : List (List CellValue)) :
    ExcelParse.findHeaderRow grid = ExcelParse.findHeaderRow (grid.take 10) ∧
    ((ExcelParse.findHeaderRow grid = -1) ↔
      ∀ j, j < (grid.take 10).length →
        ExcelParse.scoreRow ((grid.take 10).getD j []) ≤ 0) ∧
    (ExcelParse.findHeaderRow grid ≠ -1 →
      ∃ j, j < (grid.take 10).length ∧ ExcelParse.findHeaderRow grid = (j : Int) ∧
        0 < ExcelParse.scoreRow ((grid.take 10).getD j []) ∧
        (∀ k, k < (grid.take 10).length →
          ExcelParse.scoreRow ((grid.take 10).getD k []) ≤
            ExcelParse.scoreRow ((grid.take 10).getD j [])) ∧
        (∀ k, k < j →
          ExcelParse.scoreRow ((grid.take 10).getD k []) <
            ExcelParse.scoreRow ((grid.take 10).getD j []))) := by
  have htake : ExcelParse.findHeaderRow grid = ExcelParse.findHeaderRow (grid.take 10) := by
    unfold ExcelParse.findHeaderRow
    rw [List.take_take]
    norm_num
  have hdef : ExcelParse.findHeaderRow grid =
      ExcelParse.findHeaderRowAux (grid.take 10) 0 (-1) 0 := rfl
  rcases findHeaderRowAux_spec (grid.take 10) 0 (-1) 0 le_rfl with
    ⟨heq, hall⟩ | ⟨j, hj, heq, hgt, hmax, hstrict⟩
  · refine ⟨htake, ?_, ?_⟩
    · constructor
      · intro _
        exact hall
      · intro _
        rw [hdef, heq]
    · intro hne
      exact absurd (hdef.trans heq) hne
  · have hval : ExcelParse.findHeaderRow grid = (j : Int) := by
      rw [hdef, heq]
      omega
    refine ⟨htake, ?_, ?_⟩
    · constructor
      · intro h
        rw [hval] at h
        exact absurd h (by omega)
      · intro hall
        exact absurd (lt_of_lt_of_le hgt (hall j hj)) (by omega)
    · intro _
      exact ⟨j, hj, hval, hgt, hmax, hstrict⟩

/-- Witness for C7: on a grid whose first row is numeric noise and whose
second row holds the headers, the located row is index 1. -/
theorem C7_find_header_row_witness :
    ∃ j, j < (([[CellValue.num 1, CellValue.num 2],
        [CellValue.str "name", CellValue.str "price", CellValue.str "qty"]] :
          List (List CellValue)).take 10).length ∧
      ExcelParse.findHeaderRow [[CellValue.num 1, CellValue.num 2],
        [CellValue.str "name", CellValue.str "price", CellValue.str "qty"]] = (j : Int) ∧
      0 < ExcelParse.scoreRow ((([[CellValue.num 1, CellValue.num 2],
          [CellValue.str "name", CellValue.str "price", CellValue.str "qty"]] :
            List (List CellValue)).take 10).getD j []) ∧
      (∀ k, k < (([[CellValue.num 1, CellValue.num 2],
          [CellValue.str "name", CellValue.str "price", CellValue.str "qty"]] :
            List (List CellValue)).take 10).length →
        ExcelParse.scoreRow ((([[CellValue.num 1, CellValue.num 2],
            [CellValue.str "name", CellValue.str "price", CellValue.str "qty"]] :
              List (List CellValue)).take 10).getD k []) ≤
          ExcelParse.scoreRow ((([[CellValue.num 1, CellValue.num 2],
              [CellValue.str "name", CellValue.str "price", CellValue.str "qty"]] :
                List (List CellValue)).take 10).getD j [])) ∧
      (∀ k, k < j →
        ExcelParse.scoreRow ((([[CellValue.num 1, CellValue.num 2],
            [CellValue.str "name", CellValue.str "price", CellValue.str "qty"]] :
              List (List CellValue)).take 10).getD k []) <
          ExcelParse.scoreRow ((([[CellValue.num 1, CellValue.num 2],
              [CellValue.str "name", CellValue.str "price", CellValue.str "qty"]] :
                List (List CellValue)).take 10).getD j [])) :=
  (C7_find_header_row _).2.2 (by decide)

namespace CostDetect

/-- COST_PRICE_KEYWORDS from the shared types module. -/
def COST_PRICE_KEYWORDS : List String :=
  ["cost", "price", "wholesale", "buy", "supplier", "purchase", "unit cost",
   "base price", "price for carton qty", "price for carton", "carton price",
   "price per carton", "unit price", "selling price", "list price", "carton",
   "qty", "amount", "value", "rate"]

inductive DetectionMethod where
  | header_exact_match
  | header_partial_match
  | data_pattern_match
  | position_heuristic
  | user_selected
  | forced_numeric
deriving DecidableEq, Repr

/-- DetectionResult; a missing `alternativeColumns` is modelled as `[]`. -/
structure DetectionResult where
  columnIndex : Int
  confidence : ℚ
  detectionMethod : DetectionMethod
  alternativeColumns : List Int
deriving DecidableEq, Repr

/-- DetectionOptions, already merged with the service defaults. -/
structure DetectionOptions where
  minConfidence : ℚ
  requiredDataRows : Nat
  customPriceKeywords : List String
deriving DecidableEq, Repr

def defaultDetectionOptions : DetectionOptions := ⟨mkRat 3 10, 5, []⟩

def createLowConfidenceResult (columnIndex : Int) (method : DetectionMethod) :
    DetectionResult :=
  ⟨columnIndex, 0, method, []⟩

/-- The inner keyword loop of `detectByHeaderExactMatch`: case-insensitive
equality between the trimmed lowercased header and some keyword. -/
def exactMatchPred (opts : DetectionOptions) (header : String) : Bool :=
  (COST_PRICE_KEYWORDS ++ opts.customPriceKeywords).any fun keyword =>
    jsTrim (jsToLower header) == jsToLower keyword

def detectByHeaderExactMatch (headers : List String) (opts : DetectionOptions) :
    DetectionResult :=
  match headers.findIdx? (exactMatchPred opts) with
  | some i => ⟨(i : Int), mkRat 95 100, .header_exact_match, []⟩
  | none => createLowConfidenceResult (-1) .header_exact_match

/-- Per-header score of `detectByHeaderPartialMatch`: the best
`keywordLength / headerLength` over all contained keywords, +0.2 when the
keyword sits at position 0. -/
def partialScore (opts : DetectionOptions) (header : String) : ℚ :=
  let h := jsTrim (jsToLower header)
  (COST_PRICE_KEYWORDS ++ opts.customPriceKeywords).foldl (fun score keyword =>
    if strIncludes h (jsToLower keyword) then
      let baseScore : ℚ := rDiv ((jsToLower keyword).length : ℚ) (h.length : ℚ)
      let positionBonus : ℚ := if strStartsWith h (jsToLower keyword) then mkRat 1 5 else 0
      max score (rAdd baseScore positionBonus)
    else score) 0

/-- Stable descending insertion by score (the JS
`sort((a, b) => b.score - a.score)` of a stable sort). -/
def insertByScoreDesc (x : Nat × ℚ) : List (Nat × ℚ) → List (Nat × ℚ)
  | [] => [x]
  | y :: ys => if y.2 < x.2 then x :: y :: ys else y :: insertByScoreDesc x ys

def sortByScoreDesc (l : List (Nat × ℚ)) : List (Nat × ℚ) :=
  l.foldl (fun acc x => insertByScoreDesc x acc) []

/-- The scored candidate list of `detectByHeaderPartialMatch`. -/
def partialMatchCandidates (headers : List String) (opts : DetectionOptions) :
    List (Nat × ℚ) :=
  headers.enum.filterMap fun ih =>
    if 0 < partialScore opts ih.2 then some (ih.1, partialScore opts ih.2) else none

def detectByHeaderPartialMatch (headers : List String) (opts : DetectionOptions) :
    DetectionResult :=
  let candidates := partialMatchCandidates headers opts
  if candidates.length = 0 then createLowConfidenceResult (-1) .header_partial_match
  else
    match sortByScoreDesc candidates with
    | [] => createLowConfidenceResult (-1) .header_partial_match
    | bestMatch :: rest =>
      let baseConfidence := min (rMul bestMatch.2 (mkRat 4 5)) (mkRat 85 100)
      let competitionPenalty : ℚ := if 1 < candidates.length then mkRat 1 10 else 0
      ⟨(bestMatch.1 : Int), max (rSub baseConfidence competitionPenalty) (mkRat 1 10),
        .header_partial_match, (rest.take 2).map fun m => (m.1 : Int)⟩

/-- `hasReasonablePriceRange` (the source reads the min and max off a sorted
copy; they are modelled as folds). -/
def hasReasonablePriceRange (values : List ℚ) : Bool :=
  if values.length = 0 then false
  else
    let mn := values.foldl min (values.headD 0)
    let mx := values.foldl max (values.headD 0)
    decide (mkRat 1 100 ≤ mn) && decide (mx ≤ 1000000) &&
      decide (rDiv mx (max mn (mkRat 1 100)) ≤ 10000)

/-- `hasConsistentDecimalPrecision`: at least 80 percent of the values have
0–3 printed decimal digits. -/
def hasConsistentDecimalPrecision (values : List ℚ) : Bool :=
  if values.length = 0 then false
  else
    let precisions := values.map decimalDigitsOf
    decide (mkRat 4 5 ≤
      rDiv ((precisions.filter fun p => decide (p ≤ 3)).length : ℚ) (precisions.length : ℚ))

/-- `analyzeNumericColumn`: numeric ratio gate at 0.5 percent, then a
composite score from ratio, price range, decimal precision and
all-positive values, capped at 1. -/
def analyzeNumericColumn (columnData : List (Option CellValue)) : Bool × ℚ :=
  let nonNullValues := columnData.filterMap fun v =>
    match v with
    | some (.num q) => some q
    | _ => none
  if nonNullValues.length = 0 then (false, 0)
  else
    let totalValues := (columnData.filter fun v => !(v == some CellValue.null)).length
    let numericRatio : ℚ := rDiv (nonNullValues.length : ℚ) (max totalValues 1 : ℚ)
    if numericRatio < mkRat 5 1000 then (false, 0)
    else
      let positiveValues := nonNullValues.filter fun q => decide (0 < q)
      let s1 := rMul numericRatio (mkRat 2 5)
      let s2 := if hasReasonablePriceRange positiveValues then rAdd s1 (mkRat 3 10) else s1
      let s3 := if hasConsistentDecimalPrecision positiveValues then rAdd s2 (mkRat 1 5) else s2
      let s4 := if positiveValues.length = nonNullValues.length ∧ 0 < positiveValues.length
                then rAdd s3 (mkRat 1 10) else s3
      (true, min s4 1)

/-- The numeric-column candidates of `detectByDataPatterns` (score boosted
by 0.3 when the header contains a price keyword). -/
def dataPatternCandidates (headers : List String) (rows : List (List CellValue)) :
    List (Nat × ℚ) :=
  (List.range headers.length).filterMap fun colIndex =>
    let analysis := analyzeNumericColumn (rows.map fun row => row.get? colIndex)
    if analysis.1 && decide (mkRat 1 2 < analysis.2) then
      some (colIndex, rAdd analysis.2
        (if COST_PRICE_KEYWORDS.any fun keyword =>
            strIncludes (jsToLower (headers.getD colIndex "")) (jsToLower keyword)
         then mkRat 3 10 else 0))
    else none

def detectByDataPatterns (headers : List String) (rows : List (List CellValue)) :
    DetectionResult :=
  let numericColumns := dataPatternCandidates headers rows
  if numericColumns.length = 0 then createLowConfidenceResult (-1) .data_pattern_match
  else
    match sortByScoreDesc numericColumns with
    | [] => createLowConfidenceResult (-1) .data_pattern_match
    | bestColumn :: rest =>
      ⟨(bestColumn.1 : Int), min (rMul bestColumn.2 (mkRat 3 4)) (mkRat 4 5), .data_pattern_match,
        (rest.take 2).map fun c => (c.1 : Int)⟩

/-- The candidate-position scan of `detectByPositionHeuristics`. -/
def positionHeuristicScan (headers : List String) (rows : List (List CellValue)) :
    List Nat → DetectionResult
  | [] => createLowConfidenceResult (-1) .position_heuristic
  | position :: restPos =>
    if position < headers.length then
      if (analyzeNumericColumn (rows.map fun row => row.get? position)).1 &&
          decide (mkRat 1 100 < (analyzeNumericColumn (rows.map fun row => row.get? position)).2)
      then ⟨(position : Int), mkRat 2 5, .position_heuristic, []⟩
      else positionHeuristicScan headers rows restPos
    else positionHeuristicScan headers rows restPos

def detectByPositionHeuristics (headers : List String) (rows : List (List CellValue)) :
    DetectionResult :=
  positionHeuristicScan headers rows [1, 2, 3, 4, 5]

/-- One step of the `forceDetectBestNumericColumn` scan: take column `i`
when it is numeric and strictly beats the best score so far. -/
def forceScanStep (rows : List (List CellValue)) (acc : Int × ℚ) (i : Nat) : Int × ℚ :=
  if (analyzeNumericColumn (rows.map fun row => row.get? i)).1 &&
      decide (acc.2 < (analyzeNumericColumn (rows.map fun row => row.get? i)).2)
  then ((i : Int), (analyzeNumericColumn (rows.map fun row => row.get? i)).2)
  else acc

/-- `forceDetectBestNumericColumn`: scan every column for the strictly best
numeric score; `none` when no column is numeric at all. -/
def forceDetectBestNumericColumn (headers : List String) (rows : List (List CellValue)) :
    Option DetectionResult :=
  let best := (List.range headers.length).foldl (forceScanStep rows) ((-1 : Int), (0 : ℚ))
  if 0 ≤ best.1 then some ⟨best.1, min (rMul best.2 (mkRat 1 2)) (mkRat 2 5), .forced_numeric, []⟩
  else none

/-- The main-loop accumulator: keep a result that clears `minConfidence`
and strictly beats the current best. -/
def considerStrategyResult (minConfidence : ℚ) (best : Option DetectionResult)
    (result : DetectionResult) : Option DetectionResult :=
  if minConfidence ≤ result.confidence then
    match best with
    | none => some result
    | some b => if b.confidence < result.confidence then some result else some b
  else best

/-- The fallback-loop accumulator with its very low strict threshold 0.1. -/
def considerFallbackResult (best : Option DetectionResult)
    (result : DetectionResult) : Option DetectionResult :=
  if mkRat 1 10 < result.confidence then
    match best with
    | none => some result
    | some b => if b.confidence < result.confidence then some result else some b
  else best

/-- `detectCostPriceColumn`: input guards, the four strategies, the relaxed
fallback pass over strategies 2–4, the forced numeric pick, and the final
zero-confidence result. -/
def detectCostPriceColumn (headers : List String) (rows : List (List CellValue))
    (opts : DetectionOptions) : DetectionResult :=
  if headers.length = 0 then createLowConfidenceResult (-1) .header_exact_match
  else if rows.length < opts.requiredDataRows then
    createLowConfidenceResult (-1) .header_exact_match
  else
    match [detectByHeaderExactMatch headers opts,
        detectByHeaderPartialMatch headers opts,
        detectByDataPatterns headers rows,
        detectByPositionHeuristics headers rows].foldl
        (considerStrategyResult opts.minConfidence) none with
    | some bestResult => bestResult
    | none =>
      match [detectByHeaderPartialMatch headers opts,
          detectByDataPatterns headers rows,
          detectByPositionHeuristics headers rows].foldl considerFallbackResult none with
      | some bestResult => bestResult
      | none =>
        match forceDetectBestNumericColumn headers rows with
        | some forcedResult => forcedResult
        | none => createLowConfidenceResult (-1) .header_exact_match

end CostDetect

/-- The invariant of claim C3 for one detection result. -/
def GoodResult (r : CostDetect.DetectionResult) : Prop :=
  0 ≤ r.confidence ∧ r.confidence ≤ 1 ∧ (r.columnIndex = -1 ↔ r.confidence = 0)

lemma good_low (m : CostDetect.DetectionMethod) :
    GoodResult (CostDetect.createLowConfidenceResult (-1) m) :=
  ⟨le_refl 0, (by norm_num : (0 : ℚ) ≤ 1), iff_of_true rfl rfl⟩

lemma exact_good (headers : List String) (opts : CostDetect.DetectionOptions) :
    GoodResult (CostDetect.detectByHeaderExactMatch headers opts) := by
  unfold CostDetect.detectByHeaderExactMatch
  split
  · rename_i i heq
    exact ⟨(by norm_num : (0 : ℚ) ≤ mkRat 95 100), (by norm_num : (mkRat 95 100 : ℚ) ≤ 1),
      iff_of_false (by omega : ¬((i : Int) = -1)) (by norm_num : ¬((mkRat 95 100 : ℚ) = 0))⟩
  · exact good_low _

lemma mem_insertByScoreDesc (x : Nat × ℚ) (l : List (Nat × ℚ)) (y : Nat × ℚ)
    (h : y ∈ CostDetect.insertByScoreDesc x l) : y = x ∨ y ∈ l := by
  induction l with
  | nil => simpa [CostDetect.insertByScoreDesc] using h
  | cons z zs ih =>
    rw [CostDetect.insertByScoreDesc] at h
    split at h
    · rcases List.mem_cons.mp h with rfl | hy
      · exact Or.inl rfl
      · exact Or.inr hy
    · rcases List.mem_cons.mp h with rfl | hy
      · exact Or.inr (List.mem_cons_self _ _)
      · rcases ih hy with rfl | hy2
        · exact Or.inl rfl
        · exact Or.inr (List.mem_cons_of_mem _ hy2)

lemma mem_foldl_insertByScoreDesc (l : List (Nat × ℚ)) :
    ∀ (acc : List (Nat × ℚ)) (y : Nat × ℚ),
      y ∈ l.foldl (fun acc x => CostDetect.insertByScoreDesc x acc) acc →
      y ∈ acc ∨ y ∈ l := by
  induction l with
  | nil => exact fun acc y h => Or.inl h
  | cons z zs ih =>
    intro acc y h
    rcases ih (CostDetect.insertByScoreDesc z acc) y h with hy | hy
    · rcases mem_insertByScoreDesc z acc y hy with rfl | hy2
      · exact Or.inr (List.mem_cons_self _ _)
      · exact Or.inl hy2
    · exact Or.inr (List.mem_cons_of_mem _ hy)

lemma mem_of_mem_sortByScoreDesc (l : List (Nat × ℚ)) (y : Nat × ℚ)
    (h : y ∈ CostDetect.sortByScoreDesc l) : y ∈ l := by
  rcases mem_foldl_insertByScoreDesc l [] y h with hy | hy
  · simp at hy
  · exact hy

lemma partial_conf_pos (s pen : ℚ) :
    (0 : ℚ) < max (rSub (min (rMul s (mkRat 4 5)) (mkRat 85 100)) pen) (mkRat 1 10) :=
  lt_of_lt_of_le (by norm_num) (le_max_right _ _)

lemma partial_conf_le_85 (s pen : ℚ) (hpen : 0 ≤ pen) :
    max (rSub (min (rMul s (mkRat 4 5)) (mkRat 85 100)) pen) (mkRat 1 10) ≤ mkRat 85 100 := by
  rw [rSub_eq]
  apply max_le
  · linarith [min_le_right (rMul s (mkRat 4 5)) (mkRat 85 100 : ℚ)]
  · norm_num

lemma partial_good (headers : List String) (opts : CostDetect.DetectionOptions) :
    GoodResult (CostDetect.detectByHeaderPartialMatch headers opts) := by
  simp only [CostDetect.detectByHeaderPartialMatch]
  split
  · exact good_low _
  · split
    · exact good_low _
    · rename_i hne bestMatch rest heq
      have hpen : (0 : ℚ) ≤
          (if 1 < (CostDetect.partialMatchCandidates headers opts).length
           then (mkRat 1 10 : ℚ) else 0) := by
        split <;> norm_num
      refine ⟨le_of_lt (partial_conf_pos bestMatch.2 _), ?_, ?_⟩
      · exact le_trans (partial_conf_le_85 bestMatch.2 _ hpen) (by norm_num)
      · refine iff_of_false (by omega : ¬((bestMatch.1 : Int) = -1)) ?_
        exact fun hx => absurd hx (ne_of_gt (partial_conf_pos bestMatch.2
          (if 1 < (CostDetect.partialMatchCandidates headers opts).length
           then (mkRat 1 10 : ℚ) else 0)))

lemma dataPatternCandidates_pos (headers : List String) (rows : List (List CellValue)) :
    ∀ x ∈ CostDetect.dataPatternCandidates headers rows, (mkRat 1 2 : ℚ) < x.2 := by
  intro x hx
  simp only [CostDetect.dataPatternCandidates] at hx
  rw [List.mem_filterMap] at hx
  obtain ⟨colIndex, -, hf⟩ := hx
  by_cases hcond : ((CostDetect.analyzeNumericColumn
      (rows.map fun row => row.get? colIndex)).1 &&
      decide ((mkRat 1 2 : ℚ) <
        (CostDetect.analyzeNumericColumn (rows.map fun row => row.get? colIndex)).2)) = true
  · rw [if_pos hcond] at hf
    cases hf
    rw [Bool.and_eq_true, decide_eq_true_eq] at hcond
    have h2 := hcond.2
    have h30 : (0 : ℚ) ≤ mkRat 3 10 := by norm_num
    split
    · show (mkRat 1 2 : ℚ) < rAdd
        (CostDetect.analyzeNumericColumn (rows.map fun row => row.get? colIndex)).2 (mkRat 3 10)
      rw [rAdd_eq]
      linarith
    · show (mkRat 1 2 : ℚ) < rAdd
        (CostDetect.analyzeNumericColumn (rows.map fun row => row.get? colIndex)).2 0
      rw [rAdd_eq]
      linarith
  · rw [if_neg hcond] at hf
    cases hf

lemma data_good (headers : List String) (rows : List (List CellValue)) :
    GoodResult (CostDetect.detectByDataPatterns headers rows) := by
  simp only [CostDetect.detectByDataPatterns]
  split
  · exact good_low _
  · split
    · exact good_low _
    · rename_i hne bestColumn rest heq
      have hmem : bestColumn ∈ CostDetect.dataPatternCandidates headers rows := by
        apply mem_of_mem_sortByScoreDesc
        rw [heq]
        exact List.mem_cons_self _ _
      have hpos := dataPatternCandidates_pos headers rows _ hmem
      have hb : (0 : ℚ) < bestColumn.2 := lt_trans (by norm_num) hpos
      have hmul : (0 : ℚ) < rMul bestColumn.2 (mkRat 3 4) := by
        rw [rMul_eq]
        exact mul_pos hb (by norm_num)
      refine ⟨le_of_lt (lt_min hmul (by norm_num)), ?_, ?_⟩
      · exact le_trans (min_le_right _ _) (by norm_num)
      · refine iff_of_false (by omega : ¬((bestColumn.1 : Int) = -1)) ?_
        exact fun hx => absurd hx (ne_of_gt
          (lt_min hmul (by norm_num : (0 : ℚ) < mkRat 4 5)))

lemma position_scan_good (headers : List String) (rows : List (List CellValue))
    (ps : List Nat) : GoodResult (CostDetect.positionHeuristicScan headers rows ps) := by
  induction ps with
  | nil => exact good_low _
  | cons p rest ih =>
    rw [CostDetect.positionHeuristicScan]
    split
    · split
      · exact ⟨(by norm_num : (0 : ℚ) ≤ mkRat 2 5), (by norm_num : (mkRat 2 5 : ℚ) ≤ 1),
          iff_of_false (by omega : ¬((p : Int) = -1)) (by norm_num : ¬((mkRat 2 5 : ℚ) = 0))⟩
      · exact ih
    · exact ih

lemma position_good (headers : List String) (rows : List (List CellValue)) :
    GoodResult (CostDetect.detectByPositionHeuristics headers rows) :=
  position_scan_good headers rows _

lemma forceScanStep_inv (rows : List (List CellValue)) (acc : Int × ℚ) (i : Nat)
    (h : (acc.1 = -1 ∧ acc.2 = 0) ∨ (0 ≤ acc.1 ∧ 0 < acc.2)) :
    ((CostDetect.forceScanStep rows acc i).1 = -1 ∧
      (CostDetect.forceScanStep rows acc i).2 = 0) ∨
    (0 ≤ (CostDetect.forceScanStep rows acc i).1 ∧
      0 < (CostDetect.forceScanStep rows acc i).2) := by
  unfold CostDetect.forceScanStep
  split
  · rename_i hcond
    rw [Bool.and_eq_true, decide_eq_true_eq] at hcond
    right
    refine ⟨(by positivity : (0 : Int) ≤ (i : Int)), ?_⟩
    show 0 < (CostDetect.analyzeNumericColumn (rows.map fun row => row.get? i)).2
    rcases h with ⟨-, h2⟩ | ⟨-, h2⟩
    · rw [h2] at hcond
      exact hcond.2
    · exact lt_trans h2 hcond.2
  · exact h

lemma forceScan_foldl_inv (rows : List (List CellValue)) (l : List Nat) :
    ∀ acc : Int × ℚ,
      ((acc.1 = -1 ∧ acc.2 = 0) ∨ (0 ≤ acc.1 ∧ 0 < acc.2)) →
      (((l.foldl (CostDetect.forceScanStep rows) acc).1 = -1 ∧
        (l.foldl (CostDetect.forceScanStep rows) acc).2 = 0) ∨
       (0 ≤ (l.foldl (CostDetect.forceScanStep rows) acc).1 ∧
        0 < (l.foldl (CostDetect.forceScanStep rows) acc).2)) := by
  induction l with
  | nil => exact fun acc h => h
  | cons i rest ih =>
    intro acc hacc
    simp only [List.foldl_cons]
    exact ih _ (forceScanStep_inv rows acc i hacc)

lemma forced_good (headers : List String) (rows : List (List CellValue))
    (r : CostDetect.DetectionResult)
    (h : CostDetect.forceDetectBestNumericColumn headers rows = some r) : GoodResult r := by
  simp only [CostDetect.forceDetectBestNumericColumn] at h
  split at h
  · rename_i hge
    cases h
    have hinv := forceScan_foldl_inv rows (List.range headers.length)
      ((-1 : Int), (0 : ℚ)) (Or.inl ⟨rfl, rfl⟩)
    rcases hinv with ⟨h1, -⟩ | ⟨-, h2⟩
    · rw [h1] at hge
      exact absurd hge (by norm_num)
    · have hmul : (0 : ℚ) < rMul ((List.range headers.length).foldl
          (CostDetect.forceScanStep rows) ((-1 : Int), (0 : ℚ))).2 (mkRat 1 2) := by
        rw [rMul_eq]
        exact mul_pos h2 (by norm_num)
      refine ⟨le_of_lt (lt_min hmul (by norm_num)), ?_, ?_⟩
      · exact le_trans (min_le_right _ _) (by norm_num)
      · refine iff_of_false (show ¬(((List.range headers.length).foldl
            (CostDetect.forceScanStep rows) ((-1 : Int), (0 : ℚ))).1 = -1) by omega) ?_
        exact fun hx => absurd hx (ne_of_gt
          (lt_min hmul (by norm_num : (0 : ℚ) < mkRat 2 5)))
  · cases h

lemma considerStrategyResult_cases (mc : ℚ) (acc : Option CostDetect.DetectionResult)
    (r : CostDetect.DetectionResult) :
    CostDetect.considerStrategyResult mc acc r = acc ∨
      CostDetect.considerStrategyResult mc acc r = some r := by
  unfold CostDetect.considerStrategyResult
  by_cases hmc : mc ≤ r.confidence
  · rw [if_pos hmc]
    cases acc with
    | none => exact Or.inr rfl
    | some b =>
      by_cases hlt : b.confidence < r.confidence
      · refine Or.inr ?_
        show (if b.confidence < r.confidence then some r else some b) = some r
        rw [if_pos hlt]
      · refine Or.inl ?_
        show (if b.confidence < r.confidence then some r else some b) = some b
        rw [if_neg hlt]
  · rw [if_neg hmc]
    exact Or.inl rfl

lemma considerFallbackResult_cases (acc : Option CostDetect.DetectionResult)
    (r : CostDetect.DetectionResult) :
    CostDetect.considerFallbackResult acc r = acc ∨
      CostDetect.considerFallbackResult acc r = some r := by
  unfold CostDetect.considerFallbackResult
  by_cases hmc : (mkRat 1 10 : ℚ) < r.confidence
  · rw [if_pos hmc]
    cases acc with
    | none => exact Or.inr rfl
    | some b =>
      by_cases hlt : b.confidence < r.confidence
      · refine Or.inr ?_
        show (if b.confidence < r.confidence then some r else some b) = some r
        rw [if_pos hlt]
      · refine Or.inl ?_
        show (if b.confidence < r.confidence then some r else some b) = some b
        rw [if_neg hlt]
  · rw [if_neg hmc]
    exact Or.inl rfl

lemma foldl_considerStrategy_good (mc : ℚ) (rs : List CostDetect.DetectionResult)
    (hrs : ∀ r ∈ rs, GoodResult r) :
    ∀ acc : Option CostDetect.DetectionResult, (∀ b, acc = some b → GoodResult b) →
      ∀ b, rs.foldl (CostDetect.considerStrategyResult mc) acc = some b → GoodResult b := by
  induction rs with
  | nil => exact fun acc hacc b hb => hacc b hb
  | cons r rest ih =>
    intro acc hacc b hb
    refine ih (fun x hx => hrs x (List.mem_cons_of_mem _ hx)) _ ?_ b hb
    intro c hc
    rcases considerStrategyResult_cases mc acc r with he | he
    · rw [he] at hc
      exact hacc c hc
    · rw [he] at hc
      cases hc
      exact hrs r (List.mem_cons_self _ _)

lemma foldl_considerFallback_good (rs : List CostDetect.DetectionResult)
    (hrs : ∀ r ∈ rs, GoodResult r) :
    ∀ acc : Option CostDetect.DetectionResult, (∀ b, acc = some b → GoodResult b) →
      ∀ b, rs.foldl CostDetect.considerFallbackResult acc = some b → GoodResult b := by
  induction rs with
  | nil => exact fun acc hacc b hb => hacc b hb
  | cons r rest ih =>
    intro acc hacc b hb
    refine ih (fun x hx => hrs x (List.mem_cons_of_mem _ hx)) _ ?_ b hb
    intro c hc
    rcases considerFallbackResult_cases acc r with he | he
    · rw [he] at hc
      exact hacc c hc
    · rw [he] at hc
      cases hc
      exact hrs r (List.mem_cons_self _ _)

/-- C3: every detection result has confidence in [0,1], and `columnIndex`
is −1 exactly when confidence is 0. -/
theorem C3_detection_result_invariant (headers : List String)
    (rows : List (List CellValue)) (opts : CostDetect.DetectionOptions) :
    0 ≤ (CostDetect.detectCostPriceColumn headers rows opts).confidence ∧
    (CostDetect.detectCostPriceColumn headers rows opts).confidence ≤ 1 ∧
    ((CostDetect.detectCostPriceColumn headers rows opts).columnIndex = -1 ↔
      (CostDetect.detectCostPriceColumn headers rows opts).confidence = 0) := by
  show GoodResult _
  unfold CostDetect.detectCostPriceColumn
  have hstr : ∀ r ∈ [CostDetect.detectByHeaderExactMatch headers opts,
      CostDetect.detectByHeaderPartialMatch headers opts,
      CostDetect.detectByDataPatterns headers rows,
      CostDetect.detectByPositionHeuristics headers rows], GoodResult r := by
    intro r hr
    rcases List.mem_cons.mp hr with rfl | hr
    · exact exact_good headers opts
    rcases List.mem_cons.mp hr with rfl | hr
    · exact partial_good headers opts
    rcases List.mem_cons.mp hr with rfl | hr
    · exact data_good headers rows
    rcases List.mem_cons.mp hr with rfl | hr
    · exact position_good headers rows
    cases hr
  have hfb : ∀ r ∈ [CostDetect.detectByHeaderPartialMatch headers opts,
      CostDetect.detectByDataPatterns headers rows,
      CostDetect.detectByPositionHeuristics headers rows], GoodResult r := by
    intro r hr
    rcases List.mem_cons.mp hr with rfl | hr
    · exact partial_good headers opts
    rcases List.mem_cons.mp hr with rfl | hr
    · exact data_good headers rows
    rcases List.mem_cons.mp hr with rfl | hr
    · exact position_good headers rows
    cases hr
  split
  · exact good_low _
  · split
    · exact good_low _
    · split
      · rename_i bestResult heq
        exact foldl_considerStrategy_good opts.minConfidence _ hstr none
          (fun b hb => by cases hb) bestResult heq
      · split
        · rename_i bestResult heq
          exact foldl_considerFallback_good _ hfb none (fun b hb => by cases hb)
            bestResult heq
        · split
          · rename_i forcedResult heq
            exact forced_good headers rows forcedResult heq
          · exact good_low _

lemma position_scan_conf_le (headers : List String) (rows : List (List CellValue))
    (ps : List Nat) :
    (CostDetect.positionHeuristicScan headers rows ps).confidence ≤ mkRat 85 100 := by
  induction ps with
  | nil => exact (by norm_num : (0 : ℚ) ≤ mkRat 85 100)
  | cons p rest ih =>
    rw [CostDetect.positionHeuristicScan]
    split
    · split
      · exact (by norm_num : (mkRat 2 5 : ℚ) ≤ mkRat 85 100)
      · exact ih
    · exact ih

lemma partial_conf_le (headers : List String) (opts : CostDetect.DetectionOptions) :
    (CostDetect.detectByHeaderPartialMatch headers opts).confidence ≤ mkRat 85 100 := by
  simp only [CostDetect.detectByHeaderPartialMatch]
  split
  · exact (by norm_num : (0 : ℚ) ≤ mkRat 85 100)
  · split
    · exact (by norm_num : (0 : ℚ) ≤ mkRat 85 100)
    · rename_i hne bestMatch rest heq
      exact partial_conf_le_85 bestMatch.2 _ (by split <;> norm_num)

lemma data_conf_le (headers : List String) (rows : List (List CellValue)) :
    (CostDetect.detectByDataPatterns headers rows).confidence ≤ mkRat 85 100 := by
  simp only [CostDetect.detectByDataPatterns]
  split
  · exact (by norm_num : (0 : ℚ) ≤ mkRat 85 100)
  · split
    · exact (by norm_num : (0 : ℚ) ≤ mkRat 85 100)
    · exact le_trans (min_le_right _ _) (by norm_num)

lemma position_conf_le (headers : List String) (rows : List (List CellValue)) :
    (CostDetect.detectByPositionHeuristics headers rows).confidence ≤ mkRat 85 100 :=
  position_scan_conf_le headers rows _

lemma considerStrategy_keep (mc : ℚ) (b r : CostDetect.DetectionResult)
    (hb : b.confidence = mkRat 95 100) (hr : r.confidence ≤ mkRat 85 100) :
    CostDetect.considerStrategyResult mc (some b) r = some b := by
  unfold CostDetect.considerStrategyResult
  by_cases hmc : mc ≤ r.confidence
  · rw [if_pos hmc]
    show (if b.confidence < r.confidence then some r else some b) = some b
    rw [if_neg (show ¬(b.confidence < r.confidence) from by
      rw [hb]
      exact not_lt.mpr (le_trans hr (by norm_num)))]
  · rw [if_neg hmc]

/-- C4 counterexample: on headers `["cost"]` with no data rows, the exact
strategy does find column 0 with confidence 0.95, but
`detectCostPriceColumn` returns the −1 zero-confidence result because the
`requiredDataRows` guard (default 5) fires first. -/
theorem C4_exact_match_counterexample :
    CostDetect.detectByHeaderExactMatch ["cost"] CostDetect.defaultDetectionOptions =
      ⟨0, mkRat 95 100, .header_exact_match, []⟩ ∧
    CostDetect.detectCostPriceColumn ["cost"] [] CostDetect.defaultDetectionOptions =
      ⟨-1, 0, .header_exact_match, []⟩ := by
  decide

/-- C4 amended: whenever there are at least `requiredDataRows` (default 5)
data rows and the exact-header-match strategy finds a case-insensitive
keyword equality, `detectCostPriceColumn` with default options returns that
strategy's result — the leftmost exactly-matching column with confidence
0.95 and the exact-match method — outranking every other strategy. -/
theorem C4_exact_match_priority (headers : List String) (rows : List (List CellValue))
    (i0 : Nat) (hrows : 5 ≤ rows.length)
    (hfind : headers.findIdx?
      (CostDetect.exactMatchPred CostDetect.defaultDetectionOptions) = some i0) :
    CostDetect.detectCostPriceColumn headers rows CostDetect.defaultDetectionOptions =
      ⟨(i0 : Int), mkRat 95 100, .header_exact_match, []⟩ := by
  have hne : ¬ headers.length = 0 := by
    intro h
    rw [List.length_eq_zero.mp h] at hfind
    cases hfind
  have hexact : CostDetect.detectByHeaderExactMatch headers
      CostDetect.defaultDetectionOptions = ⟨(i0 : Int), mkRat 95 100, .header_exact_match, []⟩ := by
    unfold CostDetect.detectByHeaderExactMatch
    rw [hfind]
  unfold CostDetect.detectCostPriceColumn
  rw [if_neg hne, if_neg (by
    show ¬ rows.length < CostDetect.defaultDetectionOptions.requiredDataRows
    simp only [CostDetect.defaultDetectionOptions]
    omega)]
  simp only [List.foldl_cons, List.foldl_nil]
  rw [hexact]
  have h1 : CostDetect.considerStrategyResult
      CostDetect.defaultDetectionOptions.minConfidence none
      ⟨(i0 : Int), mkRat 95 100, .header_exact_match, []⟩ =
      some ⟨(i0 : Int), mkRat 95 100, .header_exact_match, []⟩ := by
    unfold CostDetect.considerStrategyResult
    rw [if_pos]
    show CostDetect.defaultDetectionOptions.minConfidence ≤ (mkRat 95 100 : ℚ)
    simp only [CostDetect.defaultDetectionOptions]
    norm_num
  rw [h1]
  rw [considerStrategy_keep _ _ _ rfl (partial_conf_le headers _)]
  rw [considerStrategy_keep _ _ _ rfl (data_conf_le headers rows)]
  rw [considerStrategy_keep _ _ _ rfl (position_conf_le headers rows)]

/-- Witness for C4 on headers `["cost"]` with five data rows. -/
theorem C4_exact_match_priority_witness :
    CostDetect.detectCostPriceColumn ["cost"] (List.replicate 5 [CellValue.num 1])
      CostDetect.defaultDetectionOptions = ⟨0, mkRat 95 100, .header_exact_match, []⟩ :=
  C4_exact_match_priority ["cost"] (List.replicate 5 [CellValue.num 1]) 0
    (by decide) (by decide)

/-- The keyword list exactly as the claim states it (it omits the
`"price for"` entry that the code has). -/
def specClaimPriceKeywordList : List String :=
  ["unit price", "price for carton", "unit cost", "selling price",
   "list price", "price", "cost", "amount", "value"]

/-- Best-price-column search as the spec words it, parameterized by the
keyword list: the first keyword phrase (most specific first) matching some
header wins with its leftmost matching header; otherwise the first column
whose header contains no exclusion keyword; otherwise column 0. -/
def specBestPriceSearch (kws : List String) (headers : List CellValue) : Nat :=
  ((kws.filterMap fun kw =>
        headers.findIdx? fun h =>
          strIncludes (jsToLower (jsStringOrEmpty (some h))) (jsToLower kw)).head?).getD
    ((headers.findIdx? fun h => !MarkupCalc.isExcludedPriceHeader h).getD 0)

lemma findPriceKeywordIdx_eq_head (kws : List String) (headers : List CellValue) :
    MarkupCalc.findPriceKeywordIdx kws headers =
      (kws.filterMap fun kw =>
        headers.findIdx? fun h =>
          strIncludes (jsToLower (jsStringOrEmpty (some h))) (jsToLower kw)).head? := by
  induction kws with
  | nil => rfl
  | cons kw kws ih =>
    simp only [MarkupCalc.findPriceKeywordIdx, List.filterMap_cons]
    cases h : headers.findIdx? fun h =>
        strIncludes (jsToLower (jsStringOrEmpty (some h))) (jsToLower kw) with
    | some i => simp [h]
    | none => simp [h, ih]

/-- C6 counterexample: on headers `["unit cost", "price for box"]` the code
returns column 1 (its extra keyword `"price for"` fires before
`"unit cost"`), while the claim's keyword list would return column 0. -/
theorem C6_price_keyword_counterexample :
    MarkupCalc.findBestPriceColumn [.str "unit cost", .str "price for box"] = 1 ∧
    specBestPriceSearch specClaimPriceKeywordList
      [.str "unit cost", .str "price for box"] = 0 ∧
    MarkupCalc.findBestPriceColumn [.str "unit cost", .str "price for box"] ≠
      specBestPriceSearch specClaimPriceKeywordList
        [.str "unit cost", .str "price for box"] := by
  decide

/-- C6 amended: `findBestPriceColumn` performs exactly the claimed search,
but over the ten-entry ordered keyword list that also contains `"price for"`
(between `"price for carton"` and `"unit cost"`); the non-excluded-column
fallback and the final column 0 are as claimed. -/
theorem C6_best_price_column_amended (headers : List CellValue) :
    MarkupCalc.findBestPriceColumn headers =
      specBestPriceSearch MarkupCalc.priceKeywords headers := by
  unfold MarkupCalc.findBestPriceColumn specBestPriceSearch
  rw [← findPriceKeywordIdx_eq_head]
  cases h : MarkupCalc.findPriceKeywordIdx MarkupCalc.priceKeywords headers with
  | some i => simp
  | none =>
    cases h2 : headers.findIdx? fun h => !MarkupCalc.isExcludedPriceHeader h with
    | some i => simp [h2]
    | none => simp [h2]

lemma foldl_max_le_of_le (l : List (List CellValue)) :
    ∀ a b : Nat, a ≤ b →
      List.foldl (fun m row => max m row.length) a l ≤
        List.foldl (fun m row => max m row.length) b l := by
  induction l with
  | nil => intro a b h; exact h
  | cons r t ih =>
    intro a b h
    exact ih _ _ (max_le_max h (le_refl r.length))

lemma le_foldl_max (l : List (List CellValue)) :
    ∀ a : Nat, a ≤ List.foldl (fun m row => max m row.length) a l := by
  induction l with
  | nil => intro a; exact le_refl a
  | cons r t ih => intro a; exact le_trans (le_max_left a r.length) (ih _)

lemma length_le_maxColumns (data : List (List CellValue)) (row : List CellValue)
    (h : row ∈ data) : row.length ≤ MarkupCalc.maxColumns data := by
  unfold MarkupCalc.maxColumns
  induction data with
  | nil => cases h
  | cons r t ih =>
    rcases List.mem_cons.mp h with rfl | hmem
    · exact le_trans (le_max_right 0 row.length) (le_foldl_max t _)
    · exact le_trans (ih hmem) (foldl_max_le_of_le t 0 _ (Nat.zero_le _))

lemma columnHasData_iff (data : List (List CellValue)) (col : Nat) :
    MarkupCalc.columnHasData data col = true ↔
      ∃ row ∈ data, ∃ v, row.get? col = some v ∧
        v ≠ CellValue.null ∧ v ≠ CellValue.str "" := by
  unfold MarkupCalc.columnHasData
  rw [List.any_eq_true]
  constructor
  · rintro ⟨row, hrow, hf⟩
    cases hg : row.get? col with
    | none => rw [hg] at hf; simp at hf
    | some v =>
      rw [hg] at hf
      refine ⟨row, hrow, v, hg, ?_, ?_⟩ <;> cases v <;> simp_all
  · rintro ⟨row, hrow, v, hg, hnull, hne⟩
    refine ⟨row, hrow, ?_⟩
    rw [hg]
    cases v with
    | str s =>
      have : s ≠ "" := fun hx => hne (by rw [hx])
      simpa using this
    | null => exact absurd rfl hnull
    | num q => rfl
    | bool b => rfl
    | date r => rfl

lemma isImportantHeaderAt_bound (data : List (List CellValue)) (col : Nat)
    (h : MarkupCalc.isImportantHeaderAt data col = true) :
    col < MarkupCalc.maxColumns data := by
  cases hg : (data.headD []).get? col with
  | none =>
    exfalso
    unfold MarkupCalc.isImportantHeaderAt at h
    rw [hg] at h
    revert h
    decide
  | some v =>
    obtain ⟨hlt, -⟩ := List.get?_eq_some.mp hg
    have hmem : data.headD [] ∈ data := by
      cases data with
      | nil => simp at hg
      | cons r t => exact List.mem_cons_self r t
    exact lt_of_lt_of_le hlt (length_le_maxColumns data _ hmem)

/-- C8: a column index is kept by the pruner exactly when it has a
non-null, non-empty value somewhere in the grid or its header contains one
of the important keywords; in particular a column whose header cell is
exactly `"Cost Price"` is always kept. -/
theorem C8_column_pruning_keeps (data : List (List CellValue)) (col : Nat) :
    (col ∈ MarkupCalc.columnsToKeep data ↔
      ((∃ row ∈ data, ∃ v, row.get? col = some v ∧
          v ≠ CellValue.null ∧ v ≠ CellValue.str "") ∨
        MarkupCalc.isImportantHeaderAt data col = true)) ∧
    ((data.headD []).get? col = some (CellValue.str "Cost Price") →
      col ∈ MarkupCalc.columnsToKeep data) := by
  have hiff : col ∈ MarkupCalc.columnsToKeep data ↔
      ((∃ row ∈ data, ∃ v, row.get? col = some v ∧
          v ≠ CellValue.null ∧ v ≠ CellValue.str "") ∨
        MarkupCalc.isImportantHeaderAt data col = true) := by
    unfold MarkupCalc.columnsToKeep
    rw [List.mem_filter]
    constructor
    · rintro ⟨-, hpred⟩
      rcases Bool.or_eq_true _ _ |>.mp hpred with hdata | himp
      · exact Or.inl ((columnHasData_iff data col).mp hdata)
      · exact Or.inr himp
    · intro hpred
      refine ⟨List.mem_range.mpr ?_, ?_⟩
      · rcases hpred with hdata | himp
        · obtain ⟨row, hrow, v, hg, -, -⟩ := hdata
          obtain ⟨hlt, -⟩ := List.get?_eq_some.mp hg
          exact lt_of_lt_of_le hlt (length_le_maxColumns data row hrow)
        · exact isImportantHeaderAt_bound data col himp
      · rcases hpred with hdata | himp
        · exact Bool.or_eq_true _ _ |>.mpr (Or.inl ((columnHasData_iff data col).mpr hdata))
        · exact Bool.or_eq_true _ _ |>.mpr (Or.inr himp)
  refine ⟨hiff, fun hg => ?_⟩
  apply hiff.mpr
  right
  unfold MarkupCalc.isImportantHeaderAt
  rw [hg]
  decide

/-- Witness for C8 on a one-cell grid whose only header is "Cost Price". -/
theorem C8_column_pruning_keeps_witness :
    0 ∈ MarkupCalc.columnsToKeep [[CellValue.str "Cost Price"]] :=
  (C8_column_pruning_keeps [[CellValue.str "Cost Price"]] 0).2 (by decide)

lemma jsCellOrEmpty_of_falsy (o : Option CellValue)
    (h : o = some (CellValue.num 0) ∨ o = some (CellValue.bool false)) :
    MarkupCalc.jsCellOrEmpty o = CellValue.str "" := by
  rcases h with h | h <;> rw [h] <;> decide

lemma calculateSingleMarkup_empty_str (p d : ℚ) :
    MarkupCalc.calculateSingleMarkup (some (CellValue.str "")) p d = none := by
  simp [MarkupCalc.calculateSingleMarkup, MarkupCalc.numericCostOf,
    MarkupCalc.parseNumericValue]

lemma map_const_replicate {α : Type} (l : List α) (x : CellValue) :
    l.map (fun _ => x) = List.replicate l.length x := by
  induction l with
  | nil => rfl
  | cons a t ih => simp [List.replicate_succ, ih]

lemma cleaned_cell_empty (data : List (List CellValue)) (j : Nat) (r : List CellValue)
    (k c : Nat) (hj : data.get? j = some r)
    (hk : (MarkupCalc.columnsToKeep data).get? k = some c)
    (hv : r.get? c = some (CellValue.num 0) ∨ r.get? c = some (CellValue.bool false)) :
    ∃ cr, (MarkupCalc.removeEmptyColumns data).get? j = some cr ∧
      cr.get? k = some (CellValue.str "") := by
  have hne : data.isEmpty = false := by
    cases data with
    | nil => simp at hj
    | cons r t => rfl
  unfold MarkupCalc.removeEmptyColumns
  rw [hne, if_neg (by simp)]
  refine ⟨(MarkupCalc.columnsToKeep data).map
    (fun colIndex => MarkupCalc.jsCellOrEmpty (r.get? colIndex)), ?_, ?_⟩
  · rw [List.get?_map, hj]
    rfl
  · rw [List.get?_map, hk]
    simp only [Option.map_some']
    rw [jsCellOrEmpty_of_falsy _ hv]

/-- C9: after the internal pruning of `applyMarkupCalculations`, a kept cell
whose original value was the number 0 or the boolean `false` has become the
empty string; consequently a data row whose (re-aimed) cost cell originally
held 0 gets empty-string markup cells appended rather than numbers. -/
theorem C9_zero_cost_empty_markup :
    (∀ (data : List (List CellValue)) (j : Nat) (r : List CellValue) (k c : Nat),
      data.get? j = some r →
      (MarkupCalc.columnsToKeep data).get? k = some c →
      (r.get? c = some (CellValue.num 0) ∨ r.get? c = some (CellValue.bool false)) →
      ∃ cr, (MarkupCalc.removeEmptyColumns data).get? j = some cr ∧
        cr.get? k = some (CellValue.str "")) ∧
    (∀ (headerRow : List CellValue) (dataRows : List (List CellValue)) (costIdx : Int)
      (mcols : List MarkupCalc.MarkupColumn) (cfg : MarkupCalc.MarkupConfiguration)
      (j : Nat) (r : List CellValue) (c : Nat),
      dataRows.get? j = some r →
      (MarkupCalc.columnsToKeep (headerRow :: dataRows)).get?
        (MarkupCalc.adjustColumnIndex headerRow
          ((MarkupCalc.removeEmptyColumns (headerRow :: dataRows)).headD []) costIdx) =
        some c →
      (r.get? c = some (CellValue.num 0) ∨ r.get? c = some (CellValue.bool false)) →
      ∃ cr, (MarkupCalc.removeEmptyColumns (headerRow :: dataRows)).get? (j + 1) = some cr ∧
        (MarkupCalc.applyMarkupCalculations (headerRow :: dataRows) costIdx mcols cfg).get?
            (j + 1) =
          some (cr ++ List.replicate mcols.length (CellValue.str ""))) := by
  constructor
  · exact cleaned_cell_empty
  · intro headerRow dataRows costIdx mcols cfg j r c hj hk hv
    obtain ⟨cr, hcr, hcell⟩ :=
      cleaned_cell_empty (headerRow :: dataRows) (j + 1) r _ c
        (by simpa using hj) hk hv
    refine ⟨cr, hcr, ?_⟩
    simp only [MarkupCalc.applyMarkupCalculations]
    rw [List.get?_cons_succ, List.get?_map]
    have htail : (MarkupCalc.removeEmptyColumns (headerRow :: dataRows)).tail.get? j =
        some cr := by
      cases hdc : MarkupCalc.removeEmptyColumns (headerRow :: dataRows) with
      | nil => rw [hdc] at hcr; simp at hcr
      | cons h0 t0 =>
        rw [hdc] at hcr
        rw [List.get?_cons_succ] at hcr
        simpa using hcr
    rw [htail]
    simp only [Option.map_some']
    congr 1
    congr 1
    have hmap : mcols.map (fun markupColumn =>
        match MarkupCalc.calculateSingleMarkup (cr.get?
            (MarkupCalc.adjustColumnIndex headerRow
              ((MarkupCalc.removeEmptyColumns (headerRow :: dataRows)).headD []) costIdx))
            markupColumn.percentage cfg.decimalPlaces with
        | some markupPrice => CellValue.num markupPrice
        | none => CellValue.str "") = mcols.map (fun _ => CellValue.str "") := by
      apply List.map_congr_left
      intro mc _
      rw [hcell, calculateSingleMarkup_empty_str]
    rw [hmap, map_const_replicate]

/-- Witness for C9 on a two-row grid whose cost cell is the number 0. -/
theorem C9_zero_cost_empty_markup_witness :
    (∃ cr, (MarkupCalc.removeEmptyColumns [[CellValue.str "Cost"], [CellValue.num 0]]).get? 1 =
        some cr ∧ cr.get? 0 = some (CellValue.str "")) ∧
    (∃ cr, (MarkupCalc.removeEmptyColumns [[CellValue.str "Cost"], [CellValue.num 0]]).get? 1 =
        some cr ∧
      (MarkupCalc.applyMarkupCalculations [[CellValue.str "Cost"], [CellValue.num 0]] 0
          [⟨10, 1, "10% Markup"⟩] ⟨[10], 2, none⟩).get? 1 =
        some (cr ++ List.replicate 1 (CellValue.str ""))) := by
  constructor
  · exact C9_zero_cost_empty_markup.1 [[CellValue.str "Cost"], [CellValue.num 0]] 1
      [CellValue.num 0] 0 0 (by decide) (by decide)
      (Or.inl (by decide))
  · have h := C9_zero_cost_empty_markup.2 [CellValue.str "Cost"] [[CellValue.num 0]] 0
      [⟨10, 1, "10% Markup"⟩] ⟨[10], 2, none⟩ 0 [CellValue.num 0] 0
      (by decide) (by decide)
      (Or.inl (by decide))
    simpa using h

/-- Witness for C5 on a small grid and a valid configuration. -/
theorem C5_validation_amended_witness :
    ([[CellValue.str "Cost"], [CellValue.num 5]] : List (List CellValue)) ≠ [] ∧
    (([[CellValue.str "Cost"], [CellValue.num 5]] : List (List CellValue)).headD []) ≠ [] ∧
    0 ≤ (0 : Int) ∧
    (0 : Int) < ((([[CellValue.str "Cost"], [CellValue.num 5]] :
        List (List CellValue)).headD []).length : Int) ∧
    (MarkupCalc.MarkupConfiguration.mk [10] 2 none).percentages ≠ [] ∧
    (∀ p ∈ (MarkupCalc.MarkupConfiguration.mk [10] 2 none).percentages, 0 ≤ p) ∧
    0 ≤ (MarkupCalc.MarkupConfiguration.mk [10] 2 none).decimalPlaces ∧
    (MarkupCalc.MarkupConfiguration.mk [10] 2 none).decimalPlaces ≤ 10 :=
  C5_validation_amended [[CellValue.str "Cost"], [CellValue.num 5]] 0 ⟨[10], 2, none⟩
    (by decide)
